import Mathlib

/-!
Shallow embedding of the fillmore-labs async package (futures, promises,
memoizers and fan-in combinators) together with theorems checking the
natural-language specification against the code.

The repository contains two generations of the design:

* a struct-based design (`value.go`, the struct `Promise`/`Future` and
  `Transform`/`AndThen` in `then.go`), modelled below by `ValueCell`,
  `CellPromise`, `FutureA` and `Transform`;
* a channel-based design (`Promise`/`Future` as a buffered channel of
  capacity one, the `Memoizer`, and the `YieldAll`-based combinators),
  modelled below by `Chan1`, `ChanPromise`, `FutureB`/`FutureC`,
  `MemoState` and `YieldAllGo`.

Go panics and blocking are made explicit through the `Outcome` type, and
the pseudo-random tie-break of a two-way `select` whose cases are both
ready is an explicit `SelectBranch` parameter.
-/

namespace Async

/-- GoError models the distinguishable error values that flow through the
package: the context errors, the sentinel errors `ErrNotReady` and
`ErrNoResult`, caller-supplied errors (`testErr`), and the wrapping
`fmt.Errorf("...: %w", ...)` sites, one constructor per format string. -/
inductive GoError : Type where
  | canceled : GoError
  | deadlineExceeded : GoError
  | testErr (n : Nat) : GoError
  | errNotReady : GoError
  | errNoResult : GoError
  | asyncWaitCanceled (cause : GoError) : GoError
  | futureWait (cause : GoError) : GoError
  | futureAwait (cause : GoError) : GoError
  | memoizerWait (cause : GoError) : GoError
  | waitAllValuesResult (idx : Nat) (cause : GoError) : GoError
  deriving DecidableEq, Repr

/-- GoResult models `result.Result[R]` and the `Result[R]` interface: an
immutable tagged union of a success value and a failure error.
Modelled from the spec: the `result` sub-package is not under `src/`;
section 3 of the spec describes it as "tagged union {Value(T), Error(E)},
immutable once constructed". -/
inductive GoResult (R : Type) : Type where
  | value (v : R) : GoResult R
  | error (e : GoError) : GoResult R
  deriving DecidableEq, Repr

/-- V models the accessor `V() (R, error)`: success gives the value and a
nil error, failure gives the zero value of R and the error.
Modelled from the spec: "Accessor yields (T, error) semantics: success
returns the value with no error; failure returns a zero value with the
error set" (the `result` sub-package is not under `src/`). -/
def GoResult.V {R : Type} [Inhabited R] : GoResult R → R × Option GoError
  | .value v => (v, none)
  | .error e => (default, some e)

/-- of models `result.Of(value, err)`: builds a `Result` from a Go
(value, error) pair. Modelled from the spec: the `result` sub-package is
not under `src/`; `Promise.Do` in `part_004` uses it to turn `fn()`'s
pair into the stored Result. -/
def GoResult.of {R : Type} (p : R × Option GoError) : GoResult R :=
  match p.2 with
  | some e => .error e
  | none => .value p.1

/-- isValue tells whether a result is a success. -/
def GoResult.isValue {R : Type} : GoResult R → Bool
  | .value _ => true
  | .error _ => false

/-- getValue extracts the success value, giving the zero value on an
error. -/
def GoResult.getValue {R : Type} [Inhabited R] : GoResult R → R
  | .value v => v
  | .error _ => default

/-- Panic enumerates the run-time panics the embedded code can raise. -/
inductive Panic : Type where
  | closeOfClosedChannel : Panic
  | sendOnClosedChannel : Panic
  | nilInterfaceCall : Panic
  | expiredFuture : Panic
  deriving DecidableEq, Repr

/-- Outcome models the evaluation of a statement that can finish normally,
panic, or block forever. -/
inductive Outcome (α : Type) : Type where
  | ok (a : α) : Outcome α
  | panicked (p : Panic) : Outcome α
  | blocked : Outcome α
  deriving DecidableEq, Repr

/-- bind sequences two possibly-panicking, possibly-blocking steps. -/
def Outcome.bind {α β : Type} : Outcome α → (α → Outcome β) → Outcome β
  | .ok a, f => f a
  | .panicked p, _ => .panicked p
  | .blocked, _ => .blocked

/-- Chan1 models a Go channel of capacity one carrying a `Result[R]`:
the buffer slot and the closed flag. This is the representation of the
channel-based `Promise[R]`/`Future[R]` pair. -/
structure Chan1 (R : Type) : Type where
  buf : Option (GoResult R)
  closed : Bool
  deriving DecidableEq, Repr

/-- new models `make(chan Result[R], 1)`. -/
def Chan1.new {R : Type} : Chan1 R := ⟨none, false⟩

/-- send models `ch <- r`: it panics when the channel is closed and blocks
when the one-slot buffer is full. -/
def Chan1.send {R : Type} (c : Chan1 R) (r : GoResult R) : Outcome (Chan1 R) :=
  if c.closed then .panicked .sendOnClosedChannel
  else
    match c.buf with
    | some _ => .blocked
    | none => .ok { c with buf := some r }

/-- closeCh models `close(ch)`: it panics when the channel is already
closed. -/
def Chan1.closeCh {R : Type} (c : Chan1 R) : Outcome (Chan1 R) :=
  if c.closed then .panicked .closeOfClosedChannel
  else .ok { c with closed := true }

/-- recv models an immediately-completing receive `r, ok := <-ch`: a
buffered element gives `some r` (ok true) and empties the buffer; a
closed empty channel gives `none` (ok false); an open empty channel is
not ready, encoded as the outer `none`. -/
def Chan1.recv {R : Type} (c : Chan1 R) : Option (Option (GoResult R) × Chan1 R) :=
  match c.buf with
  | some r => some (some r, { c with buf := none })
  | none => if c.closed then some (none, c) else none

/-- ready tells whether a receive on the channel would complete
immediately. -/
def Chan1.ready {R : Type} (c : Chan1 R) : Bool :=
  c.buf.isSome || c.closed

/-- Ctx models the part of a `context.Context` the package observes:
whether `ctx.Done()` has fired, and the error/cause reported by
`ctx.Err()`/`context.Cause(ctx)` once it has. -/
structure Ctx : Type where
  fired : Bool
  cause : GoError
  deriving DecidableEq, Repr

/-- SelectBranch models the pseudo-random tie-break of a two-way Go
`select` in which both the communication case and the `ctx.Done()` case
are ready: Go chooses uniformly at random, so the choice is an explicit
parameter. -/
inductive SelectBranch : Type where
  | comm : SelectBranch
  | ctxDone : SelectBranch
  deriving DecidableEq, Repr

/-! Channel-based Promise (`part_004` second half: `Fulfill`/`Reject`/`Do`,
and `part_000` second half: `SendValue`/`SendError`/`Send`). Each
resolution sends the result on the one-slot channel and then closes it. -/

/-- Fulfill models `Promise.Fulfill` (part_004): `p <- valueResult{value}`
followed by `close(p)`. -/
def ChanPromise.Fulfill {R : Type} (c : Chan1 R) (v : R) : Outcome (Chan1 R) :=
  (c.send (.value v)).bind Chan1.closeCh

/-- Reject models `Promise.Reject` (part_004): `p <- errorResult{err}`
followed by `close(p)`. -/
def ChanPromise.Reject {R : Type} (c : Chan1 R) (e : GoError) : Outcome (Chan1 R) :=
  (c.send (.error e)).bind Chan1.closeCh

/-- Do models `Promise.Do` (part_004): run f, then Fulfill with its value
when the error is nil, otherwise Reject with the error. -/
def ChanPromise.Do {R : Type} (c : Chan1 R) (f : Unit → R × Option GoError) :
    Outcome (Chan1 R) :=
  match f () with
  | (v, none) => ChanPromise.Fulfill c v
  | (_, some e) => ChanPromise.Reject c e

/-- SendValue models `Promise.SendValue` (part_000): identical body to
Fulfill. -/
def ChanPromise.SendValue {R : Type} (c : Chan1 R) (v : R) : Outcome (Chan1 R) :=
  (c.send (.value v)).bind Chan1.closeCh

/-- SendError models `Promise.SendError` (part_000): identical body to
Reject. -/
def ChanPromise.SendError {R : Type} (c : Chan1 R) (e : GoError) : Outcome (Chan1 R) :=
  (c.send (.error e)).bind Chan1.closeCh

/-- Send models `Promise.Send` (part_000): run f, then SendValue or
SendError with its outcome. -/
def ChanPromise.Send {R : Type} (c : Chan1 R) (f : Unit → R × Option GoError) :
    Outcome (Chan1 R) :=
  match f () with
  | (v, none) => ChanPromise.SendValue c v
  | (_, some e) => ChanPromise.SendError c e

/-- ChanResolveMethod enumerates the resolution entry points of the
channel-based Promise; a caller-supplied work function is modelled as a
pure pair producer. -/
inductive ChanResolveMethod (R : Type) : Type where
  | fulfill (v : R) : ChanResolveMethod R
  | reject (e : GoError) : ChanResolveMethod R
  | doFn (f : Unit → R × Option GoError) : ChanResolveMethod R
  | sendValue (v : R) : ChanResolveMethod R
  | sendError (e : GoError) : ChanResolveMethod R
  | send (f : Unit → R × Option GoError) : ChanResolveMethod R

/-- applyMethod dispatches a resolution method on the channel promise. -/
def ChanPromise.applyMethod {R : Type} (c : Chan1 R) :
    ChanResolveMethod R → Outcome (Chan1 R)
  | .fulfill v => ChanPromise.Fulfill c v
  | .reject e => ChanPromise.Reject c e
  | .doFn f => ChanPromise.Do c f
  | .sendValue v => ChanPromise.SendValue c v
  | .sendError e => ChanPromise.SendError c e
  | .send f => ChanPromise.Send c f

/-! Channel-based Futures. `FutureB` is the earlier generation
(`part_000`, `Wait` panics on an expired future); `FutureC` is the later
generation (`part_006`, `processResult` turns the closed-empty receive
into `ErrNoResult`). -/

/-- processResult models `Future.processResult` (part_006): a received
result is passed through, a closed-empty receive becomes
`errorResult{ErrNoResult}`. -/
def FutureC.processResult {R : Type} : Option (GoResult R) → GoResult R
  | some r => r
  | none => .error .errNoResult

/-- Wait models `Future.Wait` (part_006): select on the future channel
and `ctx.Done()`; the received result goes through `processResult` and
its `V()` is returned; the context case returns the zero value and
`fmt.Errorf("future wait: %w", ctx.Err())`. `pick` resolves the tie when
both cases are ready. -/
def FutureC.Wait {R : Type} [Inhabited R] (c : Chan1 R) (ctx : Ctx)
    (pick : SelectBranch) : Outcome ((R × Option GoError) × Chan1 R) :=
  match c.recv, ctx.fired, pick with
  | some (r?, c'), false, _ => .ok ((FutureC.processResult r?).V, c')
  | some (r?, c'), true, .comm => .ok ((FutureC.processResult r?).V, c')
  | some _, true, .ctxDone => .ok ((default, some (.futureWait ctx.cause)), c)
  | none, true, _ => .ok ((default, some (.futureWait ctx.cause)), c)
  | none, false, _ => .blocked

/-- TryWait models `Future.TryWait` (part_006): the non-blocking variant,
returning `ErrNotReady` when the channel is not ready. -/
def FutureC.TryWait {R : Type} [Inhabited R] (c : Chan1 R) :
    (R × Option GoError) × Chan1 R :=
  match c.recv with
  | some (r?, c') => ((FutureC.processResult r?).V, c')
  | none => ((default, some .errNotReady), c)

/-- Wait models the earlier `Future.Wait` (part_000): identical select,
but a closed-empty receive hits `panic("expired future")`, and the
context case returns `ctx.Err()` unwrapped. -/
def FutureB.Wait {R : Type} [Inhabited R] (c : Chan1 R) (ctx : Ctx)
    (pick : SelectBranch) : Outcome ((R × Option GoError) × Chan1 R) :=
  match c.recv, ctx.fired, pick with
  | some (some r, c'), false, _ => .ok (r.V, c')
  | some (none, _), false, _ => .panicked .expiredFuture
  | some (some r, c'), true, .comm => .ok (r.V, c')
  | some (none, _), true, .comm => .panicked .expiredFuture
  | some _, true, .ctxDone => .ok ((default, some ctx.cause), c)
  | none, true, _ => .ok ((default, some ctx.cause), c)
  | none, false, _ => .blocked

/-! Struct-based Resolution Cell (`value.go`, `part_004` first half and
`part_007`). Callbacks are identified abstractly by a type `CB`; an
invocation of a callback with a result is recorded as a `(CB, result)`
event so that theorems can speak about which callbacks ran, with which
argument, and in which order. -/

/-- ValueCell models the struct `value[R]`: the `done` channel (only its
closed flag is observable), the cached result `v` (the zero Result until
written), and the callback queue channel, `some q` while open and
holding the slice q, `none` once closed. -/
structure ValueCell (R : Type) (CB : Type) : Type where
  doneClosed : Bool
  v : GoResult R
  queue : Option (List CB)
  deriving DecidableEq, Repr

/-- new models `New[R]()`'s cell: done open, zero result, queue holding
the nil slice. -/
def ValueCell.new {R CB : Type} [Inhabited R] : ValueCell R CB :=
  ⟨false, .value default, some []⟩

/-- complete models `value.complete`: store the result into `v`, close
`done` (a panic when already closed), take the queued callbacks, close
the queue, and invoke each queued callback in order with the final
result; the returned list records those invocations. -/
def ValueCell.complete {R CB : Type} (c : ValueCell R CB) (r : GoResult R) :
    Outcome (ValueCell R CB × List (CB × GoResult R)) :=
  let c1 : ValueCell R CB := { c with v := r }
  if c1.doneClosed then .panicked .closeOfClosedChannel
  else
    match c1.queue with
    | some q => .ok ({ c1 with doneClosed := true, queue := none }, q.map fun f => (f, r))
    | none => .panicked .closeOfClosedChannel

/-- onComplete models `value.onComplete`: append the callback to the open
queue, or run it immediately with the cached result when the queue is
closed; the returned list records the immediate invocation, if any. -/
def ValueCell.onComplete {R CB : Type} (c : ValueCell R CB) (f : CB) :
    ValueCell R CB × List (CB × GoResult R) :=
  match c.queue with
  | some q => ({ c with queue := some (q ++ [f]) }, [])
  | none => (c, [(f, c.v)])

/-- registerAll folds `onComplete` over a list of callbacks, collecting
any immediate invocations in order. -/
def ValueCell.registerAll {R CB : Type} (c : ValueCell R CB) :
    List CB → ValueCell R CB × List (CB × GoResult R)
  | [] => (c, [])
  | f :: fs =>
    let p := c.onComplete f
    let q := p.1.registerAll fs
    (q.1, p.2 ++ q.2)

/-- Resolve models `Promise.Resolve` (part_004): complete with
`result.OfValue(value)`. -/
def CellPromise.Resolve {R CB : Type} (c : ValueCell R CB) (v : R) :
    Outcome (ValueCell R CB × List (CB × GoResult R)) :=
  c.complete (.value v)

/-- Reject models `Promise.Reject` (part_004): complete with
`result.OfError(err)`. -/
def CellPromise.Reject {R CB : Type} (c : ValueCell R CB) (e : GoError) :
    Outcome (ValueCell R CB × List (CB × GoResult R)) :=
  c.complete (.error e)

/-- Do models `Promise.Do` (part_004): complete with `result.Of(fn())`. -/
def CellPromise.Do {R CB : Type} (c : ValueCell R CB) (f : Unit → R × Option GoError) :
    Outcome (ValueCell R CB × List (CB × GoResult R)) :=
  c.complete (GoResult.of (f ()))

/-- CellResolveMethod enumerates the resolution entry points of the
struct Promise. -/
inductive CellResolveMethod (R : Type) : Type where
  | resolve (v : R) : CellResolveMethod R
  | reject (e : GoError) : CellResolveMethod R
  | doFn (f : Unit → R × Option GoError) : CellResolveMethod R

/-- applyMethod dispatches a resolution method on the struct promise. -/
def CellPromise.applyMethod {R CB : Type} (c : ValueCell R CB) :
    CellResolveMethod R → Outcome (ValueCell R CB × List (CB × GoResult R))
  | .resolve v => CellPromise.Resolve c v
  | .reject e => CellPromise.Reject c e
  | .doFn f => CellPromise.Do c f

/-- Await models `Future.Await` (part_007): select on the cell's done
channel and `ctx.Done()`; the done case returns `f.v.V()`, the context
case returns the zero value and
`fmt.Errorf("future await: %w", context.Cause(ctx))`. `pick` resolves
the tie when both are ready. -/
def FutureA.Await {R CB : Type} [Inhabited R] (c : ValueCell R CB) (ctx : Ctx)
    (pick : SelectBranch) : Outcome (R × Option GoError) :=
  match c.doneClosed, ctx.fired, pick with
  | true, false, _ => .ok c.v.V
  | true, true, .comm => .ok c.v.V
  | true, true, .ctxDone => .ok (default, some (.futureAwait ctx.cause))
  | false, true, _ => .ok (default, some (.futureAwait ctx.cause))
  | false, false, _ => .blocked

/-- Try models `Future.Try` (part_007): the non-blocking variant. -/
def FutureA.Try {R CB : Type} [Inhabited R] (c : ValueCell R CB) :
    R × Option GoError :=
  if c.doneClosed then c.v.V else (default, some .errNotReady)

/-! Memoizer (`part_002` first half): wraps a consumed channel future
with an atomic running counter, a done flag and a cached value. The
functions below model a single caller's execution; the counter
manipulations are kept exactly as in the source so that the restored
counter value is provable. -/

/-- MemoState models `Memoizer[R]`: the wrapped future channel, the
atomic `running` counter, the done channel's closed flag, and the cached
value (the zero Result until written). -/
structure MemoState (R : Type) : Type where
  future : Chan1 R
  running : Int
  doneClosed : Bool
  value : GoResult R
  deriving DecidableEq, Repr

/-- Memoize models `Future.Memoize` (part_006): a fresh Memoizer wrapping
the consumed future, with an open done channel. -/
def FutureC.Memoize {R : Type} [Inhabited R] (c : Chan1 R) : MemoState R :=
  ⟨c, 0, false, .value default⟩

/-- Memoize models `Memoizer.Memoize` (part_002): it returns this
Memoizer itself, not a new wrapper. -/
def MemoState.Memoize {R : Type} (m : MemoState R) : MemoState R := m

/-- thereAreOthers models the counter protocol of
`Memoizer.thereAreOthers` as seen by a single caller: decrement the
counter; a nonzero result means other goroutines are still racing; at
zero the compare-and-swap from 0 to 1 succeeds (no concurrent
interference in this sequential model) and the caller is the designated
resolver. -/
def MemoState.thereAreOthers {R : Type} (m : MemoState R) : Bool × MemoState R :=
  let m1 : MemoState R := { m with running := m.running - 1 }
  if m1.running = 0 then (false, { m1 with running := 1 })
  else (true, m1)

/-- processResult models `Memoizer.processResult` for a single caller: a
received result is cached, done is closed and the counter released; a
closed-empty receive runs the last-one-out protocol, caching
`ErrNoResult` when no result was ever delivered. -/
def MemoState.processResult {R : Type} (m : MemoState R) (r? : Option (GoResult R)) :
    Outcome (GoResult R × MemoState R) :=
  match r? with
  | some r =>
    let m1 : MemoState R := { m with value := r }
    if m1.doneClosed then .panicked .closeOfClosedChannel
    else .ok (r, { m1 with doneClosed := true, running := m1.running - 1 })
  | none =>
    match m.thereAreOthers with
    | (true, m1) =>
      if m1.doneClosed then .ok (m1.value, m1) else .blocked
    | (false, m1) =>
      let m2 : MemoState R :=
        if m1.doneClosed then m1
        else { m1 with value := .error .errNoResult, doneClosed := true }
      .ok (m2.value, { m2 with running := m2.running - 1 })

/-- Wait models `Memoizer.Wait` (part_002) for a single caller:
`addRunning`, then select on the future channel and `ctx.Done()`; the
context case does `releaseRunning` and returns the zero value and
`fmt.Errorf("memoizer wait: %w", ctx.Err())`. -/
def MemoState.Wait {R : Type} [Inhabited R] (m : MemoState R) (ctx : Ctx)
    (pick : SelectBranch) : Outcome ((R × Option GoError) × MemoState R) :=
  let m1 : MemoState R := { m with running := m.running + 1 }
  match m1.future.recv, ctx.fired, pick with
  | some (r?, ch'), false, _ =>
    (MemoState.processResult { m1 with future := ch' } r?).bind fun p => .ok (p.1.V, p.2)
  | some (r?, ch'), true, .comm =>
    (MemoState.processResult { m1 with future := ch' } r?).bind fun p => .ok (p.1.V, p.2)
  | some _, true, .ctxDone =>
    .ok ((default, some (.memoizerWait ctx.cause)), { m1 with running := m1.running - 1 })
  | none, true, _ =>
    .ok ((default, some (.memoizerWait ctx.cause)), { m1 with running := m1.running - 1 })
  | none, false, _ => .blocked

/-- TryWait models `Memoizer.TryWait` (part_002) for a single caller. -/
def MemoState.TryWait {R : Type} [Inhabited R] (m : MemoState R) :
    Outcome ((R × Option GoError) × MemoState R) :=
  let m1 : MemoState R := { m with running := m.running + 1 }
  match m1.future.recv with
  | some (r?, ch') =>
    (MemoState.processResult { m1 with future := ch' } r?).bind fun p => .ok (p.1.V, p.2)
  | none =>
    .ok ((default, some .errNotReady), { m1 with running := m1.running - 1 })

/-! Chaining combinators. `Transform`/`AndThen` (then.go) register an
onComplete callback on the source; `Then`/`ThenAsync` (part_000) wait
and then transform. The invocation log makes "fn was (not) invoked"
provable. -/

/-- onSourceComplete models the body of the callback Transform registers
(then.go): once the source completes with r, the derived cell is
resolved by `ps.Do(func() (S, error) { return fn(r.V()) })`, so fn
receives both the value and the error of r. The first component is the
derived cell's Result, the second logs the argument fn was invoked
with. -/
def Transform.onSourceComplete {R S : Type} [Inhabited R]
    (fn : R → Option GoError → S × Option GoError) (r : GoResult R) :
    GoResult S × List (R × Option GoError) :=
  (GoResult.of (fn r.V.1 r.V.2), [r.V])

/-- onSourceComplete models the body of the callback AndThen registers
(then.go): identical to Transform's, except that the source dispatches
it on a fresh goroutine. -/
def AndThen.onSourceComplete {R S : Type} [Inhabited R]
    (fn : R → Option GoError → S × Option GoError) (r : GoResult R) :
    GoResult S × List (R × Option GoError) :=
  (GoResult.of (fn r.V.1 r.V.2), [r.V])

/-- ThenGo models `Then` (part_000): given the (value, error) pair
obtained from the awaitable's Wait, an error returns the zero value and
that error without invoking the transform; otherwise the transform of
the value is returned. The second component logs the invocations of the
transform. -/
def ThenGo {R S : Type} [Inhabited S] (waited : R × Option GoError)
    (thenFn : R → S × Option GoError) : (S × Option GoError) × List R :=
  match waited.2 with
  | some e => ((default, some e), [])
  | none => (thenFn waited.1, [waited.1])

/-- ThenAsyncGo models `ThenAsync` (part_000): the result delivered by
the future `ThenAsync` returns is the Result built from `Then`'s
outcome. -/
def ThenAsyncGo {R S : Type} [Inhabited S] (waited : R × Option GoError)
    (thenFn : R → S × Option GoError) : GoResult S × List R :=
  (GoResult.of (ThenGo waited thenFn).1, (ThenGo waited thenFn).2)

/-! Fan-in engine (`part_000` first half): `YieldAll` runs a
`reflect.Select` loop over the futures' channels plus `ctx.Done()`. The
scheduler's choices are explicit: `order` is the sequence of indices
chosen by the select (the completion/tie-break order), consumed one per
iteration, and `picks` says at each iteration whether the context case
wins the tie against a ready future. A chosen case is disabled in the
source, so a faithful `order` never repeats an index; theorems enforce
this through their hypotheses. The log records the `(index, result)`
pairs delivered to `yield`. -/

/-- YieldAllLoop models the `for i := 0; i < numFutures; i++` select loop
of `YieldAll`. The fuel argument is the remaining iteration count. -/
def YieldAllLoop {R σ : Type} [Inhabited R] (ctx : Ctx)
    (yield : σ → Nat → GoResult R → σ × Bool) (futures : List (Chan1 R)) :
    Nat → List Nat → List Bool → σ → List (Nat × GoResult R) →
    Outcome (σ × Option GoError × List (Nat × GoResult R))
  | 0, _, _, s, log => .ok (s, none, log)
  | Nat.succ n, order, picks, s, log =>
    if ctx.fired && picks.headD false then
      .ok (s, some (.asyncWaitCanceled ctx.cause), log)
    else
      match order with
      | [] => .blocked
      | i :: order' =>
        match (futures.getD i Chan1.new).recv with
        | none => .blocked
        | some (r?, _) =>
          let v := FutureC.processResult r?
          let p := yield s i v
          if p.2 then YieldAllLoop ctx yield futures n order' picks.tail p.1 (log ++ [(i, v)])
          else .ok (p.1, none, log ++ [(i, v)])

/-- YieldAllGo models `YieldAll`: run the select loop for
`len(futures)` iterations starting from the initial yield state. -/
def YieldAllGo {R σ : Type} [Inhabited R] (ctx : Ctx) (futures : List (Chan1 R))
    (order : List Nat) (picks : List Bool)
    (yield : σ → Nat → GoResult R → σ × Bool) (s0 : σ) :
    Outcome (σ × Option GoError × List (Nat × GoResult R)) :=
  YieldAllLoop ctx yield futures futures.length order picks s0 []

/-- waitAllYield models the yield closure of `WaitAll`: store the result
at its index and continue. -/
def waitAllYield {R : Type} :
    List (Option (GoResult R)) → Nat → GoResult R →
      List (Option (GoResult R)) × Bool :=
  fun s i r => (s.set i (some r), true)

/-- WaitAllGo models `WaitAll`: collect every delivered result into an
index-aligned slice (`none` models a still-nil Result interface slot);
a context cancellation returns `nil, err`. -/
def WaitAllGo {R : Type} [Inhabited R] (ctx : Ctx) (futures : List (Chan1 R))
    (order : List Nat) (picks : List Bool) :
    Outcome (List (Option (GoResult R)) × Option GoError) :=
  (YieldAllGo ctx futures order picks waitAllYield
      (List.replicate futures.length none)).bind fun out =>
    match out.2.1 with
    | some e => .ok ([], some e)
    | none => .ok (out.1, none)

/-- waitAllValuesYield models the yield closure of `WaitAllValues`: store
a value at its index and continue, or record
`fmt.Errorf("async WaitAllValues result %d: %w", i, err)` in the local
`yieldErr` and stop on a failed result. -/
def waitAllValuesYield {R : Type} [Inhabited R] :
    List R × Option GoError → Nat → GoResult R →
      (List R × Option GoError) × Bool :=
  fun s i r =>
    match r.V with
    | (v, none) => ((s.1.set i v, s.2), true)
    | (_, some e) => ((s.1, some (.waitAllValuesResult i e)), false)

/-- WaitAllValuesGo models `WaitAllValues`: run the fan-in loop with
`waitAllValuesYield`; a recorded first failure is returned ahead of a
cancellation error, and both return a nil slice. -/
def WaitAllValuesGo {R : Type} [Inhabited R] (ctx : Ctx) (futures : List (Chan1 R))
    (order : List Nat) (picks : List Bool) :
    Outcome (List R × Option GoError) :=
  (YieldAllGo ctx futures order picks waitAllValuesYield
      (List.replicate futures.length default, none)).bind fun out =>
    match out.1.2 with
    | some yieldErr => .ok ([], some yieldErr)
    | none =>
      match out.2.1 with
      | some e => .ok ([], some e)
      | none => .ok (out.1.1, none)

/-- waitFirstYield models the yield closure of `WaitFirst`: store the
delivered result in the local `result` variable and stop. -/
def waitFirstYield {R : Type} :
    Option (GoResult R) → Nat → GoResult R → Option (GoResult R) × Bool :=
  fun _ _ r => (some r, false)

/-- WaitFirstGo models `WaitFirst`: run the fan-in loop with
`waitFirstYield`; afterwards `result.V()` is called on the local
`result` variable, which is a nil interface when no future was ever
delivered, so that call panics. -/
def WaitFirstGo {R : Type} [Inhabited R] (ctx : Ctx) (futures : List (Chan1 R))
    (order : List Nat) (picks : List Bool) : Outcome (R × Option GoError) :=
  (YieldAllGo ctx futures order picks waitFirstYield none).bind fun out =>
    match out.2.1 with
    | some e => .ok (default, some e)
    | none =>
      match out.1 with
      | some r => .ok r.V
      | none => .panicked .nilInterfaceCall

/-- deliveredResult gives the result that receiving from future i and
passing it through `processResult` would deliver, assuming the channel
is ready; an unready channel is mapped to ErrNotReady, a case the
readiness hypotheses of the theorems exclude. -/
def deliveredResult {R : Type} [Inhabited R] (futures : List (Chan1 R)) (i : Nat) :
    GoResult R :=
  match (futures.getD i Chan1.new).recv with
  | some (r?, _) => FutureC.processResult r?
  | none => .error .errNotReady

/-! Theorems. -/

/-- C9: for every Memoizer m, `m.Memoize()` returns m itself, not a new
wrapper, so memoization is idempotent:
`m.Memoize().Memoize() = m.Memoize()`. -/
theorem memoizer_memoize_is_identity :
    ∀ (R : Type) (m : MemoState R),
      m.Memoize = m ∧ m.Memoize.Memoize = m.Memoize :=
  fun _ _ => ⟨rfl, rfl⟩

/-- afterFirstResolution helper: resolving a fresh channel promise by any
method succeeds and leaves the channel closed. -/
theorem chanPromise_first_resolution {R : Type} (m : ChanResolveMethod R) :
    ∃ c1 : Chan1 R, ChanPromise.applyMethod Chan1.new m = .ok c1 ∧ c1.closed = true := by
  cases m with
  | fulfill v => exact ⟨⟨some (.value v), true⟩, rfl, rfl⟩
  | reject e => exact ⟨⟨some (.error e), true⟩, rfl, rfl⟩
  | sendValue v => exact ⟨⟨some (.value v), true⟩, rfl, rfl⟩
  | sendError e => exact ⟨⟨some (.error e), true⟩, rfl, rfl⟩
  | doFn f =>
    rcases hf : f () with ⟨v, e⟩
    cases e with
    | none =>
      refine ⟨⟨some (.value v), true⟩, ?_, rfl⟩
      simp [ChanPromise.applyMethod, ChanPromise.Do, hf, ChanPromise.Fulfill,
        Chan1.send, Chan1.new, Chan1.closeCh, Outcome.bind]
    | some e =>
      refine ⟨⟨some (.error e), true⟩, ?_, rfl⟩
      simp [ChanPromise.applyMethod, ChanPromise.Do, hf, ChanPromise.Reject,
        Chan1.send, Chan1.new, Chan1.closeCh, Outcome.bind]
  | send f =>
    rcases hf : f () with ⟨v, e⟩
    cases e with
    | none =>
      refine ⟨⟨some (.value v), true⟩, ?_, rfl⟩
      simp [ChanPromise.applyMethod, ChanPromise.Send, hf, ChanPromise.SendValue,
        Chan1.send, Chan1.new, Chan1.closeCh, Outcome.bind]
    | some e =>
      refine ⟨⟨some (.error e), true⟩, ?_, rfl⟩
      simp [ChanPromise.applyMethod, ChanPromise.Send, hf, ChanPromise.SendError,
        Chan1.send, Chan1.new, Chan1.closeCh, Outcome.bind]

/-- closedChannel helper: every resolution method on a closed channel
promise panics with a send on a closed channel. -/
theorem chanPromise_resolution_closed_panics {R : Type} (c : Chan1 R)
    (h : c.closed = true) (m : ChanResolveMethod R) :
    ChanPromise.applyMethod c m = .panicked .sendOnClosedChannel := by
  have hsend : ∀ r : GoResult R, c.send r = .panicked .sendOnClosedChannel := by
    intro r; simp [Chan1.send, h]
  cases m with
  | fulfill v => simp [ChanPromise.applyMethod, ChanPromise.Fulfill, hsend, Outcome.bind]
  | reject e => simp [ChanPromise.applyMethod, ChanPromise.Reject, hsend, Outcome.bind]
  | sendValue v => simp [ChanPromise.applyMethod, ChanPromise.SendValue, hsend, Outcome.bind]
  | sendError e => simp [ChanPromise.applyMethod, ChanPromise.SendError, hsend, Outcome.bind]
  | doFn f =>
    rcases hf : f () with ⟨v, e⟩
    cases e with
    | none =>
      simp [ChanPromise.applyMethod, ChanPromise.Do, hf, ChanPromise.Fulfill,
        hsend, Outcome.bind]
    | some e =>
      simp [ChanPromise.applyMethod, ChanPromise.Do, hf, ChanPromise.Reject,
        hsend, Outcome.bind]
  | send f =>
    rcases hf : f () with ⟨v, e⟩
    cases e with
    | none =>
      simp [ChanPromise.applyMethod, ChanPromise.Send, hf, ChanPromise.SendValue,
        hsend, Outcome.bind]
    | some e =>
      simp [ChanPromise.applyMethod, ChanPromise.Send, hf, ChanPromise.SendError,
        hsend, Outcome.bind]

/-- C1: for every Resolution Cell, after the promise has been resolved
once by any method, any second resolution call panics, in both designs:
the struct cell panics closing its already-closed done channel
(`value.complete`), the channel promise panics sending on its
already-closed channel (`Fulfill`/`Reject`/`Do`/`SendValue`/`SendError`),
so a second resolution is never silent. -/
theorem double_resolution_panics :
    (∀ (R CB : Type) [Inhabited R] (m1 m2 : CellResolveMethod R),
      (CellPromise.applyMethod ((ValueCell.new : ValueCell R CB)) m1).bind
          (fun x => CellPromise.applyMethod x.1 m2) =
        .panicked .closeOfClosedChannel) ∧
    (∀ (R : Type) (m1 m2 : ChanResolveMethod R),
      (ChanPromise.applyMethod (Chan1.new (R := R)) m1).bind
          (fun c => ChanPromise.applyMethod c m2) =
        .panicked .sendOnClosedChannel) := by
  constructor
  · intro R CB _ m1 m2
    have hfirst : ∀ r : GoResult R,
        ValueCell.complete ((ValueCell.new : ValueCell R CB)) r =
          .ok (⟨true, r, none⟩, []) := by
      intro r; rfl
    have hsecond : ∀ (r r2 : GoResult R),
        ValueCell.complete (⟨true, r, none⟩ : ValueCell R CB) r2 =
          .panicked .closeOfClosedChannel := by
      intro r r2; rfl
    have happly : ∀ (c : ValueCell R CB) (m : CellResolveMethod R), ∃ r,
        CellPromise.applyMethod c m = c.complete r := by
      intro c m
      cases m with
      | resolve v => exact ⟨.value v, rfl⟩
      | reject e => exact ⟨.error e, rfl⟩
      | doFn f => exact ⟨GoResult.of (f ()), rfl⟩
    obtain ⟨r1, h1⟩ := happly ((ValueCell.new : ValueCell R CB)) m1
    obtain ⟨r2, h2⟩ := happly (⟨true, r1, none⟩ : ValueCell R CB) m2
    rw [h1, hfirst r1, Outcome.bind, h2, hsecond r1 r2]
  · intro R m1 m2
    obtain ⟨c1, h1, hc⟩ := chanPromise_first_resolution (R := R) m1
    rw [h1, Outcome.bind, chanPromise_resolution_closed_panics c1 hc m2]

/-- openQueue helper: registering callbacks on a cell whose queue is open
appends them in order and triggers no invocation. -/
theorem registerAll_open {R CB : Type} :
    ∀ (fs : List CB) (c : ValueCell R CB) (q : List CB), c.queue = some q →
      c.registerAll fs = ({ c with queue := some (q ++ fs) }, []) := by
  intro fs
  induction fs with
  | nil =>
    intro c q h
    cases c
    simp_all [ValueCell.registerAll]
  | cons f fs ih =>
    intro c q h
    have honc : c.onComplete f = ({ c with queue := some (q ++ [f]) }, []) := by
      cases c
      simp_all [ValueCell.onComplete]
    have hrec := ih { c with queue := some (q ++ [f]) } (q ++ [f]) rfl
    cases c
    simp_all [ValueCell.registerAll, ValueCell.onComplete]

/-- C7: callbacks registered through onComplete before resolution are not
invoked at registration time; `complete` then invokes each exactly once,
in registration order, with the final Result, synchronously during the
resolution call; a callback registered after resolution is invoked
immediately with the cached Result. -/
theorem onComplete_callback_discipline :
    ∀ (R CB : Type) [Inhabited R] (fs : List CB) (r : GoResult R) (g : CB),
      ((ValueCell.new : ValueCell R CB).registerAll fs).2 = [] ∧
      ((ValueCell.new : ValueCell R CB).registerAll fs).1.complete r =
        .ok (⟨true, r, none⟩, fs.map fun f => (f, r)) ∧
      ValueCell.onComplete (⟨true, r, none⟩ : ValueCell R CB) g =
        (⟨true, r, none⟩, [(g, r)]) := by
  intro R CB _ fs r g
  have hreg := registerAll_open fs ((ValueCell.new : ValueCell R CB)) [] rfl
  refine ⟨by rw [hreg], ?_, rfl⟩
  rw [hreg]
  rfl

/-- C5 counterexample: `Transform` applied to a failed source does invoke
fn (with the zero value and the error), and the derived result is fn's
outcome rather than the original error: with fn ignoring its error
argument and returning (42, nil), the derived cell holds Value 42, not
the source's error, and the invocation log is nonempty. -/
theorem transform_short_circuit_cex :
    ¬ ((Transform.onSourceComplete (R := Nat) (S := Nat) (fun _ _ => (42, none))
          (.error (.testErr 0))).1 = .error (.testErr 0) ∧
       (Transform.onSourceComplete (R := Nat) (S := Nat) (fun _ _ => (42, none))
          (.error (.testErr 0))).2 = []) := by
  decide

/-- C5 amended: `Then`/`ThenAsync` short-circuit: a failed wait returns
the zero value with the original error and never invokes the transform,
and a successful wait returns the transform of the value. `Transform`
and `AndThen` instead pass both the value and the error of the source
Result to fn, so fn is invoked on failure too and the derived Result is
`result.Of(fn(r.V()))` in all cases. -/
theorem then_and_transform_semantics :
    (∀ (R S : Type) [Inhabited S] (thenFn : R → S × Option GoError) (v : R)
        (e : GoError),
      ThenGo (v, some e) thenFn = ((default, some e), []) ∧
      ThenGo (v, none) thenFn = (thenFn v, [v]) ∧
      ThenAsyncGo (v, some e) thenFn = (.error e, []) ∧
      ThenAsyncGo (v, none) thenFn = (GoResult.of (thenFn v), [v])) ∧
    (∀ (R S : Type) [Inhabited R] (fn : R → Option GoError → S × Option GoError)
        (v : R) (e : GoError),
      Transform.onSourceComplete fn (.value v) =
        (GoResult.of (fn v none), [(v, none)]) ∧
      Transform.onSourceComplete fn (.error e) =
        (GoResult.of (fn default (some e)), [(default, some e)]) ∧
      AndThen.onSourceComplete fn (.value v) =
        Transform.onSourceComplete fn (.value v) ∧
      AndThen.onSourceComplete fn (.error e) =
        Transform.onSourceComplete fn (.error e)) := by
  constructor
  · intro R S _ thenFn v e
    refine ⟨rfl, rfl, rfl, rfl⟩
  · intro R S _ fn v e
    refine ⟨rfl, rfl, rfl, rfl⟩

/-- C8 counterexample: the channel Future of part_000, once its result
has been consumed by one Wait, panics with "expired future" on the next
Wait instead of returning ErrNoResult: fulfilling a fresh promise with 1
gives the channel (buffered 1, closed); the first Wait consumes it; the
second Wait on the drained closed channel panics. -/
theorem post_consumption_wait_cex :
    ChanPromise.Fulfill (Chan1.new (R := Nat)) 1 = .ok ⟨some (.value 1), true⟩ ∧
    FutureB.Wait (R := Nat) ⟨some (.value 1), true⟩ ⟨false, .canceled⟩ .comm =
      .ok ((1, none), ⟨none, true⟩) ∧
    FutureB.Wait (R := Nat) ⟨none, true⟩ ⟨false, .canceled⟩ .comm =
      .panicked .expiredFuture ∧
    FutureB.Wait (R := Nat) ⟨none, true⟩ ⟨false, .canceled⟩ .comm ≠
      .ok ((0, some .errNoResult), ⟨none, true⟩) := by
  decide

/-- C8 amended: for the part_006 channel Future, after the result has
been consumed by one Wait, every subsequent Wait returns the
distinguished ErrNoResult error instead of blocking; the earlier
part_000 channel Future instead panics with "expired future" on a
post-consumption Wait (and does not block either). -/
theorem post_consumption_wait_amended :
    ∀ (R : Type) [Inhabited R] (v : R) (e : GoError) (pick : SelectBranch),
      FutureC.Wait (⟨some (.value v), true⟩ : Chan1 R) ⟨false, e⟩ pick =
        .ok ((v, none), ⟨none, true⟩) ∧
      FutureC.Wait (⟨none, true⟩ : Chan1 R) ⟨false, e⟩ pick =
        .ok ((default, some .errNoResult), ⟨none, true⟩) ∧
      FutureB.Wait (⟨none, true⟩ : Chan1 R) ⟨false, e⟩ pick =
        .panicked .expiredFuture := by
  intro R _ v e pick
  refine ⟨rfl, rfl, rfl⟩

/-- C3 counterexample: the select in `Future.Await` breaks ties between
the done channel and an already-fired context pseudo-randomly, so on a
resolved cell holding Value 7 with a canceled context the scheduler may
pick the context case, returning the cancellation error instead of the
cached result. -/
theorem cancellation_after_resolution_cex :
    FutureA.Await (⟨true, .value 7, none⟩ : ValueCell Nat Unit)
        ⟨true, .canceled⟩ .ctxDone = .ok (0, some (.futureAwait .canceled)) ∧
    FutureA.Await (⟨true, .value 7, none⟩ : ValueCell Nat Unit)
        ⟨true, .canceled⟩ .ctxDone ≠ .ok (7, none) := by
  decide

/-- C3 amended: on an already-resolved cell, Await (part_007) and Wait
(part_006) return the cached Result whenever the cancellation signal has
not fired, or whenever the tie-break picks the communication case; the
only deviation is that a context which has already fired may win the
pseudo-random tie-break, in which case the cancellation error is
returned instead. -/
theorem cancellation_after_resolution_amended :
    ∀ (R CB : Type) [Inhabited R] (c : ValueCell R CB) (ch : Chan1 R)
      (r : GoResult R) (ctx : Ctx) (pick : SelectBranch),
      c.doneClosed = true → ch.buf = some r →
      (FutureA.Await c ctx pick = .ok c.v.V ∨
        (ctx.fired = true ∧ pick = .ctxDone ∧
          FutureA.Await c ctx pick = .ok (default, some (.futureAwait ctx.cause)))) ∧
      (FutureC.Wait ch ctx pick = .ok (r.V, { ch with buf := none }) ∨
        (ctx.fired = true ∧ pick = .ctxDone ∧
          FutureC.Wait ch ctx pick =
            .ok ((default, some (.futureWait ctx.cause)), ch))) := by
  intro R CB _ c ch r ctx pick hdone hbuf
  constructor
  · cases hf : ctx.fired with
    | false => exact Or.inl (by simp [FutureA.Await, hdone, hf])
    | true =>
      cases pick with
      | comm => exact Or.inl (by simp [FutureA.Await, hdone, hf])
      | ctxDone => exact Or.inr ⟨rfl, rfl, by simp [FutureA.Await, hdone, hf]⟩
  · have hrecv : ch.recv = some (some r, { ch with buf := none }) := by
      simp [Chan1.recv, hbuf]
    cases hf : ctx.fired with
    | false =>
      exact Or.inl (by simp [FutureC.Wait, hrecv, hf, FutureC.processResult])
    | true =>
      cases pick with
      | comm =>
        exact Or.inl (by simp [FutureC.Wait, hrecv, hf, FutureC.processResult])
      | ctxDone =>
        exact Or.inr ⟨rfl, rfl, by simp [FutureC.Wait, hrecv, hf]⟩

/-- C3 amended witness: a resolved cell holding Value 3 with an unfired
context returns the cached (3, nil), and a buffered channel future with
a fired context whose tie-break picks the communication case still
returns the buffered (5, nil). -/
theorem cancellation_after_resolution_amended_witness :
    (FutureA.Await (⟨true, .value 3, none⟩ : ValueCell Nat Unit)
        ⟨false, .canceled⟩ .comm =
          .ok (GoResult.V (R := Nat) (.value 3)) ∨
      ((false = true ∧ SelectBranch.comm = SelectBranch.ctxDone ∧
        FutureA.Await (⟨true, .value 3, none⟩ : ValueCell Nat Unit)
          ⟨false, .canceled⟩ .comm =
            .ok (default, some (.futureAwait .canceled))))) ∧
    (FutureC.Wait (⟨some (.value 5), false⟩ : Chan1 Nat) ⟨true, .canceled⟩ .comm =
        .ok (GoResult.V (R := Nat) (.value 5), ⟨none, false⟩) ∨
      ((true = true ∧ SelectBranch.comm = SelectBranch.ctxDone ∧
        FutureC.Wait (⟨some (.value 5), false⟩ : Chan1 Nat) ⟨true, .canceled⟩ .comm =
          .ok ((default, some (.futureWait .canceled)), ⟨some (.value 5), false⟩)))) := by
  have h := cancellation_after_resolution_amended Nat Unit
    (⟨true, .value 3, none⟩ : ValueCell Nat Unit)
    (⟨some (.value 5), false⟩ : Chan1 Nat) (.value 5) ⟨false, .canceled⟩ .comm
    rfl rfl
  have h2 := cancellation_after_resolution_amended Nat Unit
    (⟨true, .value 3, none⟩ : ValueCell Nat Unit)
    (⟨some (.value 5), false⟩ : Chan1 Nat) (.value 5) ⟨true, .canceled⟩ .comm
    rfl rfl
  exact ⟨h.1, h2.2⟩

/-- C10: when Wait takes the cancellation branch (the context has fired
and either the channel is not ready or the tie-break picks the context
case), the channel future's state is untouched — the buffered result is
still deliverable — and the Memoizer's running counter is decremented
back to its prior value, so its whole state is unchanged. -/
theorem cancellation_leaves_state_unchanged :
    ∀ (R : Type) [Inhabited R] (c : Chan1 R) (m : MemoState R) (ctx : Ctx)
      (pick : SelectBranch),
      ctx.fired = true →
      ((c.recv = none ∨ pick = .ctxDone) →
        FutureC.Wait c ctx pick = .ok ((default, some (.futureWait ctx.cause)), c)) ∧
      ((m.future.recv = none ∨ pick = .ctxDone) →
        MemoState.Wait m ctx pick =
          .ok ((default, some (.memoizerWait ctx.cause)), m)) := by
  intro R _ c m ctx pick hf
  constructor
  · intro h
    rcases h with h | h
    · simp [FutureC.Wait, h, hf]
    · subst h
      cases hr : c.recv with
      | none => simp [FutureC.Wait, hr, hf]
      | some x => simp [FutureC.Wait, hr, hf]
  · intro h
    have hrestore : ∀ fut done val,
        ({ future := fut, running := m.running + 1 - 1, doneClosed := done,
           value := val } : MemoState R) =
          { future := fut, running := m.running, doneClosed := done, value := val } := by
      intro fut done val
      simp
    rcases h with h | h
    · cases m with
      | mk fut run done val =>
        simp only [MemoState.Wait] at *
        simp [h, hf, hrestore]
    · subst h
      cases m with
      | mk fut run done val =>
        cases hr : Chan1.recv fut with
        | none =>
          simp only [MemoState.Wait]
          simp [hr, hf, hrestore]
        | some x =>
          simp only [MemoState.Wait]
          simp [hr, hf, hrestore]

/-- C10 witness: on a pending future (open empty channel) with a fired
canceled context, Wait on the future and on a fresh Memoizer both return
the wrapped cancellation error and leave the state exactly as it was. -/
theorem cancellation_leaves_state_unchanged_witness :
    FutureC.Wait (Chan1.new (R := Nat)) ⟨true, .canceled⟩ .ctxDone =
      .ok ((default, some (.futureWait .canceled)), Chan1.new) ∧
    MemoState.Wait (FutureC.Memoize (Chan1.new (R := Nat))) ⟨true, .canceled⟩ .ctxDone =
      .ok ((default, some (.memoizerWait .canceled)), FutureC.Memoize Chan1.new) := by
  have h := cancellation_leaves_state_unchanged Nat Chan1.new
    (FutureC.Memoize Chan1.new) ⟨true, .canceled⟩ .ctxDone rfl
  exact ⟨h.1 (Or.inr rfl), h.2 (Or.inr rfl)⟩

/-- C4: over an empty futures list, WaitAll and WaitAllValues return an
empty slice and a nil error immediately (even under a fired context),
but WaitFirst calls `V()` on the nil `result` interface variable and
panics instead of returning the zero value with a nil error. -/
theorem empty_list_combinators :
    ∀ (R : Type) [Inhabited R] (ctx : Ctx) (order : List Nat) (picks : List Bool),
      WaitAllGo (R := R) ctx [] order picks = .ok ([], none) ∧
      WaitAllValuesGo (R := R) ctx [] order picks = .ok ([], none) ∧
      WaitFirstGo (R := R) ctx [] order picks = .panicked .nilInterfaceCall := by
  intro R _ ctx order picks
  refine ⟨rfl, rfl, rfl⟩

/-- readyRecv helper: a ready channel completes its receive, and the
received payload passes through `processResult` to the delivered
result. -/
theorem recv_of_ready {R : Type} (c : Chan1 R) (h : c.ready = true) :
    ∃ p : Option (GoResult R) × Chan1 R, c.recv = some p := by
  cases hb : c.buf with
  | some r => exact ⟨(some r, { c with buf := none }), by simp [Chan1.recv, hb]⟩
  | none =>
    have hc : c.closed = true := by
      rcases Bool.or_eq_true_iff.mp (by simpa [Chan1.ready] using h) with h1 | h1
      · rw [hb] at h1; simp at h1
      · exact h1
    exact ⟨(none, c), by simp [Chan1.recv, hb, hc]⟩

theorem recv_delivered {R : Type} [Inhabited R] (futures : List (Chan1 R)) (i : Nat)
    (h : (futures.getD i Chan1.new).ready = true) :
    ∃ p : Option (GoResult R) × Chan1 R,
      (futures.getD i Chan1.new).recv = some p ∧
      FutureC.processResult p.1 = deliveredResult futures i := by
  obtain ⟨p, hp⟩ := recv_of_ready _ h
  refine ⟨p, hp, ?_⟩
  unfold deliveredResult
  rw [hp]

/-- successRun helper: with an unfired context, running the
WaitAllValues yield over ready futures that all deliver successes folds
the values into the slice, keeps the error nil, and logs every delivery
in order. -/
theorem yieldAllLoop_wav_success {R : Type} [Inhabited R] (ctx : Ctx)
    (hctx : ctx.fired = false) (futures : List (Chan1 R)) :
    ∀ (order : List Nat) (picks : List Bool) (s : List R)
      (log : List (Nat × GoResult R)),
      (∀ i ∈ order, (futures.getD i Chan1.new).ready = true) →
      (∀ i ∈ order, (deliveredResult futures i).isValue = true) →
      YieldAllLoop ctx waitAllValuesYield futures order.length order picks (s, none) log =
        .ok ((order.foldl
              (fun acc i => acc.set i (deliveredResult futures i).getValue) s, none),
          none, log ++ order.map fun i => (i, deliveredResult futures i)) := by
  intro order
  induction order with
  | nil =>
    intro picks s log _ _
    simp [YieldAllLoop]
  | cons i order' ih =>
    intro picks s log hready hval
    obtain ⟨p, hrecv, hproc⟩ :=
      recv_delivered futures i (hready i (by simp))
    obtain ⟨x, hx⟩ : ∃ x, deliveredResult futures i = .value x := by
      have hvi := hval i (by simp)
      cases h : deliveredResult futures i with
      | value x => exact ⟨x, rfl⟩
      | error e => rw [h] at hvi; simp [GoResult.isValue] at hvi
    have hstep : YieldAllLoop ctx waitAllValuesYield futures
        (i :: order').length (i :: order') picks (s, none) log =
        YieldAllLoop ctx waitAllValuesYield futures order'.length order'
          picks.tail (s.set i x, none) (log ++ [(i, GoResult.value x)]) := by
      simp only [List.length_cons, YieldAllLoop, hctx, Bool.false_and,
        Bool.false_eq_true, if_false, hrecv]
      rw [hproc, hx]
      simp [waitAllValuesYield, GoResult.V]
    rw [hstep, ih picks.tail (s.set i x) (log ++ [(i, GoResult.value x)])
      (fun a ha => hready a (by simp [ha]))
      (fun a ha => hval a (by simp [ha]))]
    simp only [List.foldl_cons, List.map_cons, hx, GoResult.getValue,
      List.append_assoc, List.cons_append, List.nil_append,
      List.singleton_append]

/-- firstFailure helper: with an unfired context, the WaitAllValues
yield processes a prefix of successes, then stops at the first failure,
recording the wrapped error and logging nothing past that failure. -/
theorem yieldAllLoop_wav_fail {R : Type} [Inhabited R] (ctx : Ctx)
    (hctx : ctx.fired = false) (futures : List (Chan1 R)) :
    ∀ (pre : List Nat) (j : Nat) (rest : List Nat) (picks : List Bool)
      (fuel : Nat) (s : List R) (log : List (Nat × GoResult R)) (e : GoError),
      pre.length < fuel →
      (∀ i ∈ pre, (futures.getD i Chan1.new).ready = true) →
      (∀ i ∈ pre, (deliveredResult futures i).isValue = true) →
      (futures.getD j Chan1.new).ready = true →
      deliveredResult futures j = .error e →
      YieldAllLoop ctx waitAllValuesYield futures fuel (pre ++ j :: rest) picks
          (s, none) log =
        .ok ((pre.foldl
              (fun acc i => acc.set i (deliveredResult futures i).getValue) s,
            some (.waitAllValuesResult j e)), none,
          log ++ (pre.map fun i => (i, deliveredResult futures i)) ++
            [(j, .error e)]) := by
  intro pre
  induction pre with
  | nil =>
    intro j rest picks fuel s log e hfuel _ _ hjready hje
    obtain ⟨n, rfl⟩ : ∃ n, fuel = n + 1 := by
      cases fuel with
      | zero => omega
      | succ n => exact ⟨n, rfl⟩
    obtain ⟨p, hrecv, hproc⟩ := recv_delivered futures j hjready
    simp only [List.nil_append, YieldAllLoop, hctx, Bool.false_and,
      Bool.false_eq_true, if_false, hrecv]
    rw [hproc, hje]
    simp [waitAllValuesYield, GoResult.V]
  | cons i pre' ih =>
    intro j rest picks fuel s log e hfuel hready hval hjready hje
    obtain ⟨n, rfl⟩ : ∃ n, fuel = n + 1 := by
      cases fuel with
      | zero => omega
      | succ n => exact ⟨n, rfl⟩
    obtain ⟨p, hrecv, hproc⟩ :=
      recv_delivered futures i (hready i (by simp))
    obtain ⟨x, hx⟩ : ∃ x, deliveredResult futures i = .value x := by
      have hvi := hval i (by simp)
      cases h : deliveredResult futures i with
      | value x => exact ⟨x, rfl⟩
      | error e2 => rw [h] at hvi; simp [GoResult.isValue] at hvi
    have hstep : YieldAllLoop ctx waitAllValuesYield futures (n + 1)
        ((i :: pre') ++ j :: rest) picks (s, none) log =
        YieldAllLoop ctx waitAllValuesYield futures n (pre' ++ j :: rest)
          picks.tail (s.set i x, none) (log ++ [(i, GoResult.value x)]) := by
      simp only [List.cons_append, YieldAllLoop, hctx, Bool.false_and,
        Bool.false_eq_true, if_false, hrecv]
      rw [hproc, hx]
      simp [waitAllValuesYield, GoResult.V]
    rw [hstep, ih j rest picks.tail n (s.set i x) (log ++ [(i, GoResult.value x)]) e
      (by simp at hfuel; omega)
      (fun a ha => hready a (by simp [ha]))
      (fun a ha => hval a (by simp [ha])) hjready hje]
    simp only [List.foldl_cons, List.map_cons, hx, GoResult.getValue,
      List.append_assoc, List.cons_append, List.nil_append,
      List.singleton_append]

/-- untouchedIndex helper: folding set-updates over indices avoiding j
leaves position j unchanged. -/
theorem foldl_set_getElem?_not_mem {α : Type} (f : Nat → α) :
    ∀ (order : List Nat) (s : List α) (j : Nat), j ∉ order →
      (order.foldl (fun acc i => acc.set i (f i)) s)[j]? = s[j]? := by
  intro order
  induction order with
  | nil => intro s j _; rfl
  | cons i order' ih =>
    intro s j hj
    have hij : i ≠ j := fun h => hj (by simp [h])
    rw [List.foldl_cons, ih (s.set i (f i)) j (fun h => hj (by simp [h])),
      List.getElem?_set_ne hij]

/-- lengthPreserved helper: folding set-updates preserves the slice
length. -/
theorem foldl_set_length {α : Type} (f : Nat → α) :
    ∀ (order : List Nat) (s : List α),
      (order.foldl (fun acc i => acc.set i (f i)) s).length = s.length := by
  intro order
  induction order with
  | nil => intro s; rfl
  | cons i order' ih =>
    intro s
    rw [List.foldl_cons, ih, List.length_set]

/-- coveredIndex helper: folding set-updates over indices containing j
writes f j at position j (later writes at j rewrite the same value). -/
theorem foldl_set_getElem?_mem {α : Type} (f : Nat → α) :
    ∀ (order : List Nat) (s : List α) (j : Nat), j ∈ order → j < s.length →
      (order.foldl (fun acc i => acc.set i (f i)) s)[j]? = some (f j) := by
  intro order
  induction order with
  | nil => intro s j hj _; simp at hj
  | cons i order' ih =>
    intro s j hj hlt
    rw [List.foldl_cons]
    by_cases hmem : j ∈ order'
    · exact ih (s.set i (f i)) j hmem (by rw [List.length_set]; exact hlt)
    · have hij : i = j := by
        rcases List.mem_cons.mp hj with h | h
        · exact h.symm
        · exact absurd h hmem
      subst hij
      rw [foldl_set_getElem?_not_mem f order' (s.set i (f i)) i hmem,
        List.getElem?_set_self hlt]

/-- pigeonhole helper: a duplicate-free list of n indices all below n
contains every index below n. -/
theorem mem_of_nodup_bounded_length {order : List Nat} {n : Nat}
    (hlen : order.length = n) (hnd : order.Nodup)
    (hbound : ∀ i ∈ order, i < n) : ∀ j, j < n → j ∈ order := by
  have hsub : order.toFinset ⊆ Finset.range n := by
    intro x hx
    exact Finset.mem_range.mpr (hbound x (List.mem_toFinset.mp hx))
  have hcard : (Finset.range n).card ≤ order.toFinset.card := by
    rw [Finset.card_range, List.toFinset_card_of_nodup hnd, hlen]
  have heq := Finset.eq_of_subset_of_card_le hsub hcard
  intro j hj
  have : j ∈ order.toFinset := by
    rw [heq]
    exact Finset.mem_range.mpr hj
  exact List.mem_toFinset.mp this

/-- C6: with an unfired context, over ready futures observed in the
order given by the scheduler: when every future delivers a success,
WaitAllValues returns the values index-aligned with a nil error; when
the observation order is a prefix of successes followed by a first
failure, WaitAllValues returns a nil slice with an error wrapping that
first failure, and the fan-in log shows consumption stops at that
failure (nothing after it is consumed). -/
theorem waitAllValues_first_failure :
    ∀ (R : Type) [Inhabited R] (futures : List (Chan1 R)) (ctx : Ctx)
      (order : List Nat) (picks : List Bool),
      ctx.fired = false →
      order.length = futures.length →
      order.Nodup →
      (∀ i ∈ order, i < futures.length) →
      (∀ i ∈ order, (futures.getD i Chan1.new).ready = true) →
      ((∀ i ∈ order, (deliveredResult futures i).isValue = true) →
        ∃ vs, WaitAllValuesGo ctx futures order picks = .ok (vs, none) ∧
          vs.length = futures.length ∧
          ∀ j, j < futures.length →
            vs[j]? = some (deliveredResult futures j).getValue) ∧
      (∀ pre j rest e, order = pre ++ j :: rest →
        (∀ i ∈ pre, (deliveredResult futures i).isValue = true) →
        deliveredResult futures j = .error e →
        WaitAllValuesGo ctx futures order picks =
          .ok ([], some (.waitAllValuesResult j e)) ∧
        YieldAllGo ctx futures order picks waitAllValuesYield
            (List.replicate futures.length default, none) =
          .ok ((pre.foldl
                (fun acc i => acc.set i (deliveredResult futures i).getValue)
                (List.replicate futures.length default),
              some (.waitAllValuesResult j e)), none,
            (pre.map fun i => (i, deliveredResult futures i)) ++
              [(j, .error e)])) := by
  intro R _ futures ctx order picks hctx hlen hnd hbound hready
  constructor
  · intro hval
    have hloop := yieldAllLoop_wav_success ctx hctx futures order picks
      (List.replicate futures.length default) [] hready hval
    rw [hlen] at hloop
    refine ⟨order.foldl
        (fun acc i => acc.set i (deliveredResult futures i).getValue)
        (List.replicate futures.length default), ?_, ?_, ?_⟩
    · unfold WaitAllValuesGo YieldAllGo
      rw [hloop]
      rfl
    · have hl := foldl_set_length
        (fun i => (deliveredResult futures i).getValue) order
        (List.replicate futures.length default)
      rw [hl, List.length_replicate]
    · intro j hj
      have hmem := mem_of_nodup_bounded_length hlen hnd hbound j hj
      exact foldl_set_getElem?_mem
        (fun i => (deliveredResult futures i).getValue) order _ j hmem
        (by rw [List.length_replicate]; exact hj)
  · intro pre j rest e horder hvalpre hje
    subst horder
    have hjready : (futures.getD j Chan1.new).ready = true := by
      apply hready; simp
    have hfuel : pre.length < futures.length := by
      rw [List.length_append, List.length_cons] at hlen
      omega
    have hloop := yieldAllLoop_wav_fail ctx hctx futures pre j rest picks
      futures.length (List.replicate futures.length default) [] e hfuel
      (fun i hi => hready i (by simp [hi]))
      (fun i hi => hvalpre i hi) hjready hje
    constructor
    · unfold WaitAllValuesGo YieldAllGo
      rw [hloop]
      rfl
    · unfold YieldAllGo
      rw [hloop]
      simp

/-- C6 witness: over the futures (fulfilled 1, rejected with test error
5, fulfilled 2) observed in index order, WaitAllValues stops at index 1
and returns a nil slice with the wrapped test error, and the fan-in log
contains exactly the index-0 success followed by the index-1 failure. -/
theorem waitAllValues_first_failure_witness :
    WaitAllValuesGo (R := Nat) ⟨false, .canceled⟩
        [⟨some (.value 1), true⟩, ⟨some (.error (.testErr 5)), true⟩,
          ⟨some (.value 2), true⟩] [0, 1, 2] [] =
      .ok ([], some (.waitAllValuesResult 1 (.testErr 5))) := by
  have h := waitAllValues_first_failure Nat
    [⟨some (.value 1), true⟩, ⟨some (.error (.testErr 5)), true⟩,
      ⟨some (.value 2), true⟩] ⟨false, .canceled⟩ [0, 1, 2] []
    rfl (by decide) (by decide) (by decide) (by decide)
  exact (h.2 [0] 1 [2] (.testErr 5) rfl (by decide) (by decide)).1

end Async
